import Mathlib

/-!
Verification development for the `speed` repository (`src/speed/teili2orca.py`).

The repository's single component is the class `teili2orca`: it reads the
member objects of a `teili`/`brian2` network, classifies them by exact type
into neuron groups, connection groups, Poisson groups and spike-generator
groups, builds a description dictionary `net_dict`, and can pickle that
dictionary to a file and load it back.

Shallow embedding conventions:
* Python dictionaries are association lists `List (String × α)`; insertion
  with an existing key overwrites in place (`dictUpdate`), a dict
  comprehension or a loop of `update` calls is a left fold of `dictUpdate`
  (`buildDict`); iteration order is insertion order, as in Python 3.7+.
* Python values stored inside `net_dict` are modelled by the inductive
  `PyVal`.  Floating point numbers are modelled by `ℚ`: true division of
  non-negative integers is exact rational division, which is faithful for
  sign and ordering facts; `np.std`'s square root is modelled by the
  rational square-root approximation `ratSqrt` (no claim depends on the
  numeric value of the `mean`/`std` tags, only on their presence).
* The file system is a record of existing directories and written files;
  `pickle.dump`/`pickle.load` of `net_dict` is modelled as storing the
  value itself (pickle is a faithful serializer on these dictionaries).
* Exceptions (`ZeroDivisionError` from `len/0`, `FileNotFoundError` /
  `IOError` from `open`) are modelled with `Except PyErr`.
* Python object aliasing: `teili2orca.__init__` stores references to the
  same group objects that the network holds, so a mutation of a group
  reached through `conn_groups` is a mutation of the network's member
  object.  The embedding makes the post-construction state of those shared
  objects visible as the values stored in `conn_groups`.
-/

namespace Speed

-- Python values that occur inside `net_dict` (ints, floats, strings,
-- booleans, lists, nested dicts, `None`). Floats are modelled by `ℚ`.
-- `PyList`/`PyDict` are mutual companions standing for Python lists and
-- dicts of such values (a dict's entries are kept in insertion order).
mutual
inductive PyVal where
  | int (n : Int)
  | float (q : ℚ)
  | str (s : String)
  | bool (b : Bool)
  | list (xs : PyList)
  | dict (xs : PyDict)
  | none

inductive PyList where
  | nil
  | cons (v : PyVal) (rest : PyList)

inductive PyDict where
  | nil
  | cons (k : String) (v : PyVal) (rest : PyDict)
end

deriving instance DecidableEq for PyVal
deriving instance DecidableEq for PyList
deriving instance DecidableEq for PyDict

/-- Conversion of an association list into a `PyDict` value. -/
def toPyDict : List (String × PyVal) → PyDict
  | [] => .nil
  | (k, v) :: rest => .cons k v (toPyDict rest)

/-- The entries of a `PyDict`, as an association list (iteration order). -/
def PyDict.entries : PyDict → List (String × PyVal)
  | .nil => []
  | .cons k v rest => (k, v) :: rest.entries

/-- Conversion of a list of values into a `PyList` value. -/
def toPyList : List PyVal → PyList
  | [] => .nil
  | v :: rest => .cons v (toPyList rest)

/-- Python dict membership test (`k in d`). -/
def hasKey (d : List (String × α)) (k : String) : Bool :=
  d.any (fun p => p.1 == k)

/-- Python `d[k] = v` / `d.update({k: v})`: overwrite in place if the key is
present, else append. -/
def dictUpdate (d : List (String × α)) (k : String) (v : α) :
    List (String × α) :=
  if hasKey d k then d.map (fun p => if p.1 == k then (k, v) else p)
  else d ++ [(k, v)]

/-- Python `d.pop(k, None)`: remove the key, keep the order of the rest. -/
def dictPop (d : List (String × α)) (k : String) : List (String × α) :=
  d.filter (fun p => !(p.1 == k))

/-- Python `d[k]` as an option (`none` models a `KeyError`). -/
def dictGet (d : List (String × α)) (k : String) : Option α :=
  (d.find? (fun p => p.1 == k)).map (·.2)

/-- A Python dict comprehension / loop of `update` calls over a list of
key-value pairs: left fold of `dictUpdate` starting from `{}`. -/
def buildDict (l : List (String × α)) : List (String × α) :=
  l.foldl (fun d p => dictUpdate d p.1 p.2) []

/-- A neuron-like group object (`Neurons`, `NeuronGroup`, `PoissonGroup`,
`SpikeGeneratorGroup`): a name, a size `N` and the `_init_parameters`
dictionary. -/
structure NeuGroup where
  name : String
  N : Nat
  initParams : List (String × PyVal)
deriving DecidableEq

/-- A connection-like group object (`Connections`, `Synapses`): name, the
names and sizes of its `source` and `target` populations, its synapse count
(`len(group)`), its `_tags` and `_init_parameters` dictionaries, and its
`w_plast` weight array. -/
structure SynGroup where
  name : String
  sourceName : String
  sourceN : Nat
  targetName : String
  targetN : Nat
  numSynapses : Nat
  tags : List (String × PyVal)
  initParams : List (String × PyVal)
  w_plast : List ℚ
deriving DecidableEq

/-- A member object of the network, tagged with its exact Python type
(`type(att) == ...` comparisons in `__init__` check the exact class). -/
inductive NetMember where
  | neurons (g : NeuGroup)
  | neuronGroup (g : NeuGroup)
  | connections (g : SynGroup)
  | synapses (g : SynGroup)
  | poisson (g : NeuGroup)
  | spikeGen (g : NeuGroup)
  | other (name : String)
deriving DecidableEq

/-- The name of a network member (`att.name`). -/
def NetMember.name : NetMember → String
  | .neurons g => g.name
  | .neuronGroup g => g.name
  | .connections g => g.name
  | .synapses g => g.name
  | .poisson g => g.name
  | .spikeGen g => g.name
  | .other n => n

/-- The input network: `net.__dict__['objects']`. -/
structure Net where
  objects : List NetMember
deriving DecidableEq

/-- Python exceptions that the code can raise. -/
inductive PyErr where
  | zeroDivision
  | fileNotFound
deriving DecidableEq

/-- `np.mean` of a weight list, as an exact rational. -/
def npMean (l : List ℚ) : ℚ := l.sum / l.length

/-- Rational square-root approximation standing in for the floating-point
square root inside `np.std`; no claim depends on its numeric value. -/
def ratSqrt (q : ℚ) : ℚ := (Int.sqrt q.num : ℚ) / (Nat.sqrt q.den : ℚ)

/-- `np.std` of a weight list: square root of the mean squared deviation. -/
def npStd (l : List ℚ) : ℚ :=
  ratSqrt ((l.map (fun w => (w - npMean l) ^ 2)).sum / l.length)

/-- `np.round(x, 4)`: rounding to four decimal places (nearest-integer
rounding of `x * 10^4`; the banker's-rounding tie rule of floats is out of
scope and no claim depends on it). -/
def npRound4 (q : ℚ) : ℚ := (round (q * 10000) : ℤ) / 10000

/-- The body of the `extract_synapse_tags` loop for one connection group,
operating in place on the group's `_tags` dictionary (`current_tags` is the
same object as `group._tags`):
seven `pop` calls, the `plastic` update from `'taupre' in _init_parameters`,
the `p_connection` division (raising `ZeroDivisionError` when
`source.N * target.N == 0`), and the `mean`/`std` updates from `w_plast`.
Returns the group with its mutated `_tags`; `synapse_tags[group_key]`
aliases that same dictionary. -/
def processTags (g : SynGroup) : Except PyErr SynGroup :=
  let t := dictPop (dictPop (dictPop (dictPop (dictPop (dictPop (dictPop
    g.tags "mismatch") "noise") "level") "num_inputs") "bb_type")
    "group_type") "connection_type"
  let t := dictUpdate t "plastic" (.bool (hasKey g.initParams "taupre"))
  if g.sourceN * g.targetN = 0 then .error .zeroDivision
  else
    let p : ℚ := (g.numSynapses : ℚ) / ((g.sourceN : ℚ) * (g.targetN : ℚ))
    let t := dictUpdate t "p_connection" (.float p)
    let t := dictUpdate t "mean" (.float (npRound4 (npMean g.w_plast)))
    let t := dictUpdate t "std" (.float (npRound4 (npStd g.w_plast)))
    .ok { g with tags := t }

/-- The `extract_synapse_tags` loop over the whole `conn_groups` dictionary.
On success it returns the dictionary of mutated connection-group objects;
the first group with an empty source or target population raises
`ZeroDivisionError` (uncaught, so the whole construction fails). -/
def processAllTags : List (String × SynGroup) →
    Except PyErr (List (String × SynGroup))
  | [] => .ok []
  | (k, g) :: rest =>
    match processTags g with
    | .error e => .error e
    | .ok g' =>
      match processAllTags rest with
      | .error e => .error e
      | .ok rest' => .ok ((k, g') :: rest')

/-- `{att.name: att for att in objects if type(att) == Neurons or
type(att) == NeuronGroup}`. -/
def neuronMembers (net : Net) : List (String × NeuGroup) :=
  buildDict (net.objects.filterMap fun m => match m with
    | .neurons g => some (g.name, g)
    | .neuronGroup g => some (g.name, g)
    | _ => Option.none)

/-- `{att.name: att for att in objects if type(att) == Connections or
type(att) == Synapses}`. -/
def connMembers (net : Net) : List (String × SynGroup) :=
  buildDict (net.objects.filterMap fun m => match m with
    | .connections g => some (g.name, g)
    | .synapses g => some (g.name, g)
    | _ => Option.none)

/-- `{att.name: att for att in objects if type(att) == PoissonGroup}`. -/
def poissonMembers (net : Net) : List (String × NeuGroup) :=
  buildDict (net.objects.filterMap fun m => match m with
    | .poisson g => some (g.name, g)
    | _ => Option.none)

/-- `{att.name: att for att in objects if type(att) ==
SpikeGeneratorGroup}`. -/
def spikegenMembers (net : Net) : List (String × NeuGroup) :=
  buildDict (net.objects.filterMap fun m => match m with
    | .spikeGen g => some (g.name, g)
    | _ => Option.none)

/-- The extractor instance after `__init__`: the attributes of a
`teili2orca` object.  `conn_groups` holds the same objects as the network
(post-construction, i.e. with their `_tags` mutated by
`extract_synapse_tags`); `net_dict` is the description dictionary. -/
structure Orca where
  neuron_groups : List (String × NeuGroup)
  conn_groups : List (String × SynGroup)
  poisson_groups : List (String × NeuGroup)
  spikegen_groups : List (String × NeuGroup)
  total_num_neurons : Nat
  total_num_synapses : Nat
  neuron_populations : List (String × Nat)
  synapse_populations : List (String × (String × String))
  synapse_tags : List (String × List (String × PyVal))
  neuron_params : List (String × List (String × PyVal))
  synapse_params : List (String × List (String × PyVal))
  net_dict : List (String × PyVal)
deriving DecidableEq

/-- `teili2orca.__init__(net)`: classify the network members by exact type,
sum neuron and synapse counts, and build `net_dict` with the extraction
functions (`extract_neuron_groups`, `extract_synapse_groups`,
`extract_synapse_tags`, `extract_neuron_parameters`,
`extract_synapse_parameters` — evaluated left to right in the dict
literal).  The loops of the extraction functions iterate over the
`neuron_groups`/`conn_groups` dictionaries, whose keys are unique, so each
`update` call appends a fresh key: the loops are maps over the
dictionaries.  `mkOrca` is the result of a construction in which
`extract_synapse_tags` succeeded and returned the mutated connection
groups `cgs'`. -/
def mkOrca (net : Net) (cgs' : List (String × SynGroup)) : Orca :=
  let ngs := neuronMembers net
  let nTot := (ngs.map (fun p => p.2.N)).sum
  let sTot := ((connMembers net).map (fun p => p.2.numSynapses)).sum
  let n_pop := ngs.map (fun p => (p.1, p.2.N))
  let s_pop := (connMembers net).map
    (fun p => (p.1, (p.2.sourceName, p.2.targetName)))
  let s_tags := cgs'.map (fun p => (p.1, p.2.tags))
  let n_params := ngs.map (fun p => (p.1, p.2.initParams))
  let s_params := cgs'.map (fun p => (p.1, p.2.initParams))
  { neuron_groups := ngs
    conn_groups := cgs'
    poisson_groups := poissonMembers net
    spikegen_groups := spikegenMembers net
    total_num_neurons := nTot
    total_num_synapses := sTot
    neuron_populations := n_pop
    synapse_populations := s_pop
    synapse_tags := s_tags
    neuron_params := n_params
    synapse_params := s_params
    net_dict := [
      ("n_total", .int (nTot : Int)),
      ("s_total", .int (sTot : Int)),
      ("n_pop", .dict (toPyDict (n_pop.map fun p => (p.1, .int (p.2 : Int))))),
      ("s_pop", .dict (toPyDict (s_pop.map fun p =>
        (p.1, .list (toPyList [.str p.2.1, .str p.2.2]))))),
      ("s_tags", .dict (toPyDict (s_tags.map fun p =>
        (p.1, .dict (toPyDict p.2))))),
      ("n_params", .dict (toPyDict (n_params.map fun p =>
        (p.1, .dict (toPyDict p.2))))),
      ("s_params", .dict (toPyDict (s_params.map fun p =>
        (p.1, .dict (toPyDict p.2)))))] }

/-- `teili2orca(net)`: run `extract_synapse_tags` over the connection
groups; an uncaught `ZeroDivisionError` aborts the construction, otherwise
the instance is assembled by `mkOrca`. -/
def teili2orca (net : Net) : Except PyErr Orca :=
  match processAllTags (connMembers net) with
  | .error e => .error e
  | .ok cgs' => .ok (mkOrca net cgs')

/-- The file system: the set of existing directories and the written
files.  A file's content is the pickled `net_dict`; `pickle` is a faithful
serializer on these dictionaries, so the content is modelled as the
dictionary value itself. -/
structure FS where
  dirs : List String
  files : List (String × List (String × PyVal))
deriving DecidableEq

/-- Whether a string starts with the path separator (an absolute path). -/
def startsWithSlash (s : String) : Bool :=
  match s.data with
  | [] => false
  | c :: _ => c == '/'

/-- Whether a string ends with the path separator. -/
def endsWithSlash (s : String) : Bool :=
  match s.data.getLast? with
  | some c => c == '/'
  | _ => false

/-- POSIX `os.path.join(a, b)`: an absolute `b` discards `a`; otherwise
the two parts are glued with exactly one separator. -/
def pathJoin (a b : String) : String :=
  if startsWithSlash b then b
  else if a = "" then b
  else if endsWithSlash a then a ++ b
  else a ++ "/" ++ b

/-- Strip trailing separators from a character list. -/
def rstripSlash (cs : List Char) : List Char :=
  (cs.reverse.dropWhile (fun c => c == '/')).reverse

/-- POSIX `os.path.dirname(p)`: everything up to the last separator, with
trailing separators stripped unless the head is all separators (so
`dirname "/a" = "/"`, `dirname "d/a" = "d"`, `dirname "a" = ""`). -/
def dirname (p : String) : String :=
  let head := (p.data.reverse.dropWhile (fun c => !(c == '/'))).reverse
  if head.all (fun c => c == '/') then String.mk head
  else String.mk (rstripSlash head)

/-- `open(path, 'wb')` succeeds iff the containing directory exists
(the working directory `""` and the root `"/"` always exist). -/
def canOpenWrite (fs : FS) (path : String) : Bool :=
  dirname path == "" || dirname path == "/" || fs.dirs.contains (dirname path)

/-- `os.path.join(os.path.expanduser('~'), 'teiliApps', 'output')`, with
the expansion of `'~'` taken as a parameter `home`. -/
def defaultDir (home : String) : String :=
  pathJoin (pathJoin home "teiliApps") "output"

/-- The Python slice `s[-k:]` as a character list: the last `k` characters
(the whole string when it is shorter than `k`). -/
def pySliceLast (s : String) (k : Nat) : List Char :=
  s.data.drop (s.data.length - k)

/-- The filename after the extension branch of `save_to_file`:
`filename` itself when `filename[-2:] == '.p'` or
`filename[-7:] == '.pickle'`, else `filename + '.p'`. -/
def saveFname (filename : String) : String :=
  if pySliceLast filename 2 = ".p".data ∨
      pySliceLast filename 7 = ".pickle".data then filename
  else filename ++ ".p"

/-- The directory used by `save_to_file`: the default directory when the
`directory` argument is `None`, the given one otherwise. -/
def saveDir (directory : Option String) (home : String) : String :=
  match directory with
  | Option.none => defaultDir home
  | some d => d

/-- `teili2orca.save_to_file(filename, directory)`: when no directory is
given, use the default directory and create it if it does not exist
(`os.makedirs`); apply the extension branch to the filename; join; pickle
`net_dict` into the resulting path.  A failing `open` raises, leaving the
file system as it stands after the `makedirs` step (`.error` carries that
state); on success the written path is returned alongside the new file
system.  No attribute of the extractor is assigned, so the `Orca` value is
read-only here.  `ensureDefaultDir` is the `makedirs` step: the default
directory is created only when the `directory` argument is `None` and the
directory does not yet exist; an explicit directory is never created. -/
def ensureDefaultDir (directory : Option String) (home : String)
    (fs : FS) : FS :=
  match directory with
  | Option.none =>
    if fs.dirs.contains (defaultDir home) then fs
    else { fs with dirs := fs.dirs ++ [defaultDir home] }
  | some _ => fs

/-- The body of `save_to_file` after the `makedirs` step: extension branch,
`os.path.join`, and the `open`/`pickle.dump` write. -/
def save_to_file (o : Orca) (filename : String) (directory : Option String)
    (home : String) (fs : FS) : Except (PyErr × FS) (FS × String) :=
  let fs1 := ensureDefaultDir directory home fs
  let path := pathJoin (saveDir directory home) (saveFname filename)
  if canOpenWrite fs1 path then
    .ok ({ fs1 with files := dictUpdate fs1.files path o.net_dict }, path)
  else .error (.fileNotFound, fs1)

/-- `teili2orca.load_from_file(filename)`: open the file for reading
(raising the underlying I/O error when it does not exist) and replace
`net_dict` wholesale with the unpickled content.  No other attribute is
assigned. -/
def load_from_file (o : Orca) (filename : String) (fs : FS) :
    Except PyErr Orca :=
  match dictGet fs.files filename with
  | Option.none => .error .fileNotFound
  | some v => .ok { o with net_dict := v }

/-- `teili2orca.print_network()`: the sequence of printed lines, each an
indentation level with a key and, for non-dict values, the value.  The
function only reads `net_dict`. -/
def print_network (o : Orca) : List (Nat × String × Option PyVal) :=
  o.net_dict.flatMap (fun p => match p.2 with
    | .dict d => (0, p.1, Option.none) ::
        (d.entries.flatMap fun q => match q.2 with
          | .dict dd => (1, q.1, Option.none) ::
              (dd.entries.map fun r => (2, r.1, some r.2))
          | _ => [(1, q.1, some q.2)])
    | _ => [(0, p.1, some p.2)])

/-- The sum of the integer entries of a `PyDict` (non-integers count 0). -/
def pyDictIntSum (d : PyDict) : Int :=
  (d.entries.map (fun p => match p.2 with | .int n => n | _ => 0)).sum

/-- Concrete connection group with more synapses (5) than source-target
pairs (2 × 2 = 4): a multapse group, as `brian2` permits. -/
def cx3G : SynGroup := ⟨"s1", "a", 2, "b", 2, 5, [], [], []⟩

/-- Concrete network holding `cx3G`. -/
def cx3Net : Net := ⟨[.connections cx3G]⟩

/-- Concrete connection group whose `_tags` dictionary carries a
`mismatch` entry before extraction. -/
def cx4G : SynGroup := ⟨"s1", "a", 1, "b", 1, 1,
  [("mismatch", .str "x"), ("sign", .str "exc")], [], []⟩

/-- Concrete network holding `cx4G`. -/
def cx4Net : Net := ⟨[.connections cx4G]⟩

/-! ### Association-list dictionary lemmas -/

theorem hasKey_cons {α : Type} (p : String × α) (rest : List (String × α))
    (k : String) : hasKey (p :: rest) k = (p.1 == k || hasKey rest k) := by
  simp [hasKey]

theorem dictGet_cons {α : Type} (p : String × α) (rest : List (String × α))
    (k : String) :
    dictGet (p :: rest) k = if p.1 = k then some p.2 else dictGet rest k := by
  by_cases hp : p.1 = k
  · rw [if_pos hp]
    unfold dictGet
    rw [List.find?_cons_of_pos _ (by simp [hp])]
    rfl
  · rw [if_neg hp]
    unfold dictGet
    rw [List.find?_cons_of_neg _ (by simp [hp])]

theorem hasKey_eq_isSome {α : Type} (d : List (String × α)) (k : String) :
    hasKey d k = (dictGet d k).isSome := by
  induction d with
  | nil => simp [hasKey, dictGet]
  | cons p rest ih =>
    rw [hasKey_cons, dictGet_cons]
    by_cases hp : p.1 = k <;> simp [hp, ih]

theorem dictUpdate_of_not_hasKey {α : Type} (d : List (String × α))
    (k : String) (v : α) (h : hasKey d k = false) :
    dictUpdate d k v = d ++ [(k, v)] := by
  simp [dictUpdate, h]

theorem dictUpdate_cons_ne {α : Type} (p : String × α)
    (rest : List (String × α)) (k : String) (v : α) (hp : ¬ p.1 = k) :
    dictUpdate (p :: rest) k v = p :: dictUpdate rest k v := by
  have hck : hasKey (p :: rest) k = hasKey rest k := by
    rw [hasKey_cons]
    simp [hp]
  by_cases hr : hasKey rest k = true
  · rw [dictUpdate, if_pos (by rw [hck, hr]), dictUpdate, if_pos hr,
      List.map_cons, if_neg (by simp [hp])]
  · rw [dictUpdate, if_neg (by rw [hck]; simpa using hr), dictUpdate,
      if_neg (by simpa using hr), List.cons_append]

theorem dictGet_dictUpdate_self {α : Type} (d : List (String × α))
    (k : String) (v : α) : dictGet (dictUpdate d k v) k = some v := by
  induction d with
  | nil =>
    rw [dictUpdate, if_neg (by simp [hasKey]), List.nil_append, dictGet_cons]
    simp
  | cons p rest ih =>
    by_cases hp : p.1 = k
    · have hk : hasKey (p :: rest) k = true := by
        rw [hasKey_cons]
        simp [hp]
      rw [dictUpdate, if_pos hk, List.map_cons, if_pos (by simp [hp]),
        dictGet_cons]
      simp
    · rw [dictUpdate_cons_ne p rest k v hp, dictGet_cons, if_neg hp]
      exact ih

theorem dictGet_map_overwrite_ne {α : Type} (l : List (String × α))
    (k k' : String) (v : α) (h : ¬ k' = k) :
    dictGet (l.map fun q => if q.1 == k' then (k', v) else q) k
      = dictGet l k := by
  induction l with
  | nil => simp [dictGet]
  | cons q lrest ihl =>
    rw [List.map_cons]
    by_cases hq : q.1 = k'
    · rw [if_pos (by simp [hq]), dictGet_cons, dictGet_cons,
        if_neg h, if_neg (by rw [hq]; exact h)]
      exact ihl
    · rw [if_neg (by simp [hq]), dictGet_cons, dictGet_cons]
      by_cases hqk : q.1 = k
      · rw [if_pos hqk, if_pos hqk]
      · rw [if_neg hqk, if_neg hqk]
        exact ihl

theorem dictGet_dictUpdate_ne {α : Type} (d : List (String × α))
    (k k' : String) (v : α) (h : ¬ k' = k) :
    dictGet (dictUpdate d k' v) k = dictGet d k := by
  by_cases hk : hasKey d k' = true
  · rw [dictUpdate, if_pos hk]
    exact dictGet_map_overwrite_ne d k k' v h
  · rw [dictUpdate, if_neg (by simpa using hk)]
    induction d with
    | nil =>
      rw [List.nil_append, dictGet_cons, if_neg h]
    | cons p rest ih =>
      rw [List.cons_append, dictGet_cons, dictGet_cons]
      by_cases hpk : p.1 = k
      · rw [if_pos hpk, if_pos hpk]
      · rw [if_neg hpk, if_neg hpk]
        exact ih (by rw [hasKey_cons] at hk; simp at hk ⊢; tauto)

theorem dictGet_dictPop_self {α : Type} (d : List (String × α)) (k : String) :
    dictGet (dictPop d k) k = Option.none := by
  induction d with
  | nil => simp [dictPop, dictGet]
  | cons p rest ih =>
    rw [dictPop, List.filter_cons]
    by_cases hp : p.1 = k
    · rw [if_neg (by simp [hp])]
      exact ih
    · rw [if_pos (by simp [hp]), dictGet_cons, if_neg hp]
      exact ih

theorem dictGet_dictPop_ne {α : Type} (d : List (String × α))
    (k k' : String) (h : ¬ k' = k) :
    dictGet (dictPop d k') k = dictGet d k := by
  induction d with
  | nil => simp [dictPop]
  | cons p rest ih =>
    rw [dictPop, List.filter_cons]
    by_cases hp : p.1 = k'
    · rw [if_neg (by simp [hp]), dictGet_cons,
        if_neg (by rw [hp]; exact h)]
      exact ih
    · rw [if_pos (by simp [hp]), dictGet_cons, dictGet_cons]
      by_cases hpk : p.1 = k
      · rw [if_pos hpk, if_pos hpk]
      · rw [if_neg hpk, if_neg hpk]
        exact ih

theorem dictGet_map_value {α β : Type} (d : List (String × α)) (f : α → β)
    (k : String) :
    dictGet (d.map fun p => (p.1, f p.2)) k = (dictGet d k).map f := by
  induction d with
  | nil => simp [dictGet]
  | cons p rest ih =>
    rw [List.map_cons, dictGet_cons, dictGet_cons]
    by_cases hp : p.1 = k <;> simp [hp, ih]

theorem dictGet_eq_none_iff {α : Type} (d : List (String × α)) (k : String) :
    dictGet d k = Option.none ↔ k ∉ d.map Prod.fst := by
  induction d with
  | nil => simp [dictGet]
  | cons p rest ih =>
    rw [dictGet_cons]
    by_cases hp : p.1 = k
    · simp [hp]
    · rw [if_neg hp, ih]
      simp only [List.map_cons, List.mem_cons]
      constructor
      · intro h hk
        rcases hk with h1 | h2
        · exact hp h1.symm
        · exact h h2
      · intro h hk
        exact h (Or.inr hk)

theorem dictGet_of_mem_nodup {α : Type} (d : List (String × α))
    (k : String) (v : α) (hnd : (d.map Prod.fst).Nodup) (hm : (k, v) ∈ d) :
    dictGet d k = some v := by
  induction d with
  | nil => simp at hm
  | cons p rest ih =>
    simp only [List.map_cons, List.nodup_cons] at hnd
    rcases List.mem_cons.mp hm with h | h
    · rw [← h, dictGet_cons, if_pos rfl]
    · have hp : ¬ p.1 = k := by
        intro hpk
        exact hnd.1 (hpk ▸ (List.mem_map.mpr ⟨(k, v), h, rfl⟩))
      rw [dictGet_cons, if_neg hp]
      exact ih hnd.2 h

theorem dictUpdate_mem_or {α : Type} (d : List (String × α)) (k : String)
    (v : α) (q : String × α) (hq : q ∈ dictUpdate d k v) :
    q ∈ d ∨ q = (k, v) := by
  by_cases hk : hasKey d k = true
  · rw [dictUpdate, if_pos hk] at hq
    rcases List.mem_map.mp hq with ⟨r, hr, hrq⟩
    by_cases hrk : r.1 = k
    · right
      rw [← hrq, if_pos (by simp [hrk])]
    · left
      rw [← hrq, if_neg (by simp [hrk])]
      exact hr
  · rw [dictUpdate, if_neg (by simpa using hk)] at hq
    rcases List.mem_append.mp hq with h | h
    · exact Or.inl h
    · right
      simpa using h

theorem buildDict_mem {α : Type} (l : List (String × α)) (q : String × α)
    (hq : q ∈ buildDict l) : q ∈ l := by
  suffices h : ∀ (l acc : List (String × α)),
      q ∈ l.foldl (fun d p => dictUpdate d p.1 p.2) acc → q ∈ acc ∨ q ∈ l by
    rcases h l [] hq with h' | h'
    · simp at h'
    · exact h'
  intro l
  induction l with
  | nil =>
    intro acc h
    exact Or.inl h
  | cons p rest ih =>
    intro acc h
    rcases ih (dictUpdate acc p.1 p.2) h with h' | h'
    · rcases dictUpdate_mem_or acc p.1 p.2 q h' with h'' | h''
      · exact Or.inl h''
      · right
        rw [h'']
        exact List.mem_cons_self _ _
    · right
      exact List.mem_cons_of_mem _ h'

theorem hasKey_append {α : Type} (a b : List (String × α)) (k : String) :
    hasKey (a ++ b) k = (hasKey a k || hasKey b k) := by
  simp [hasKey, List.any_append]

theorem buildDict_eq_self {α : Type} (l : List (String × α))
    (hnd : (l.map Prod.fst).Nodup) : buildDict l = l := by
  suffices h : ∀ (l acc : List (String × α)),
      (l.map Prod.fst).Nodup →
      (∀ k, k ∈ l.map Prod.fst → hasKey acc k = false) →
      l.foldl (fun d p => dictUpdate d p.1 p.2) acc = acc ++ l by
    simpa using h l [] hnd (by intro k _; simp [hasKey])
  intro l
  induction l with
  | nil =>
    intro acc _ _
    simp
  | cons p rest ih =>
    intro acc hnd hdisj
    simp only [List.map_cons, List.nodup_cons] at hnd
    have hacc : hasKey acc p.1 = false := hdisj p.1 (by simp)
    simp only [List.foldl_cons]
    rw [dictUpdate_of_not_hasKey acc p.1 p.2 hacc,
      ih (acc ++ [(p.1, p.2)]) hnd.2]
    · simp
    · intro k hk
      rw [hasKey_append]
      have h1 : hasKey acc k = false := hdisj k (by simp [hk])
      have h2 : hasKey [(p.1, p.2)] k = false := by
        have hpk : ¬ p.1 = k := by
          intro hpk
          exact hnd.1 (hpk ▸ hk)
        simp [hasKey, hpk]
      rw [h1, h2]
      rfl

/-! ### Facts about the tag-extraction pipeline -/

theorem processTags_zero (g : SynGroup) (hz : g.sourceN * g.targetN = 0) :
    processTags g = .error .zeroDivision := by
  simp [processTags, hz]

theorem processTags_ok_shape (g : SynGroup)
    (hz : ¬ g.sourceN * g.targetN = 0) :
    processTags g = .ok { g with tags :=
      (dictUpdate (dictUpdate (dictUpdate (dictUpdate
        (dictPop (dictPop (dictPop (dictPop (dictPop (dictPop (dictPop
          g.tags "mismatch") "noise") "level") "num_inputs") "bb_type")
          "group_type") "connection_type")
        "plastic" (.bool (hasKey g.initParams "taupre")))
        "p_connection" (.float ((g.numSynapses : ℚ) /
          ((g.sourceN : ℚ) * (g.targetN : ℚ)))))
        "mean" (.float (npRound4 (npMean g.w_plast))))
        "std" (.float (npRound4 (npStd g.w_plast)))) } := by
  simp [processTags, hz]

theorem processTags_error {g : SynGroup} {e : PyErr}
    (h : processTags g = .error e) :
    e = .zeroDivision ∧ g.sourceN * g.targetN = 0 := by
  by_cases hz : g.sourceN * g.targetN = 0
  · rw [processTags_zero g hz] at h
    injection h with h'
    exact ⟨h'.symm, hz⟩
  · rw [processTags_ok_shape g hz] at h
    exact absurd h (by simp)

theorem processTags_ok_nonzero {g g' : SynGroup}
    (h : processTags g = .ok g') : ¬ g.sourceN * g.targetN = 0 := by
  intro hz
  rw [processTags_zero g hz] at h
  exact absurd h (by simp)

theorem processTags_ok_fields {g g' : SynGroup}
    (h : processTags g = .ok g') :
    g'.name = g.name ∧ g'.sourceName = g.sourceName ∧
    g'.sourceN = g.sourceN ∧ g'.targetName = g.targetName ∧
    g'.targetN = g.targetN ∧ g'.numSynapses = g.numSynapses ∧
    g'.initParams = g.initParams ∧ g'.w_plast = g.w_plast := by
  have hz := processTags_ok_nonzero h
  rw [processTags_ok_shape g hz] at h
  injection h with h'
  rw [← h']
  exact ⟨rfl, rfl, rfl, rfl, rfl, rfl, rfl, rfl⟩

theorem processTags_tags_eq {g g' : SynGroup}
    (h : processTags g = .ok g') :
    g'.tags = dictUpdate (dictUpdate (dictUpdate (dictUpdate
      (dictPop (dictPop (dictPop (dictPop (dictPop (dictPop (dictPop
        g.tags "mismatch") "noise") "level") "num_inputs") "bb_type")
        "group_type") "connection_type")
      "plastic" (.bool (hasKey g.initParams "taupre")))
      "p_connection" (.float ((g.numSynapses : ℚ) /
        ((g.sourceN : ℚ) * (g.targetN : ℚ)))))
      "mean" (.float (npRound4 (npMean g.w_plast))))
      "std" (.float (npRound4 (npStd g.w_plast))) := by
  have hz := processTags_ok_nonzero h
  rw [processTags_ok_shape g hz] at h
  injection h with h'
  rw [← h']

theorem processTags_pconn {g g' : SynGroup}
    (h : processTags g = .ok g') :
    dictGet g'.tags "p_connection" = some (.float ((g.numSynapses : ℚ) /
      ((g.sourceN : ℚ) * (g.targetN : ℚ)))) := by
  rw [processTags_tags_eq h,
    dictGet_dictUpdate_ne _ _ _ _ (by decide : ¬ "std" = "p_connection"),
    dictGet_dictUpdate_ne _ _ _ _ (by decide : ¬ "mean" = "p_connection"),
    dictGet_dictUpdate_self]

theorem processTags_plastic {g g' : SynGroup}
    (h : processTags g = .ok g') :
    dictGet g'.tags "plastic"
      = some (.bool (hasKey g.initParams "taupre")) := by
  rw [processTags_tags_eq h,
    dictGet_dictUpdate_ne _ _ _ _ (by decide : ¬ "std" = "plastic"),
    dictGet_dictUpdate_ne _ _ _ _ (by decide : ¬ "mean" = "plastic"),
    dictGet_dictUpdate_ne _ _ _ _ (by decide : ¬ "p_connection" = "plastic"),
    dictGet_dictUpdate_self]

theorem processTags_popped {g g' : SynGroup}
    (h : processTags g = .ok g') (k : String)
    (hk : k = "mismatch" ∨ k = "noise" ∨ k = "level" ∨ k = "num_inputs" ∨
      k = "bb_type" ∨ k = "group_type" ∨ k = "connection_type") :
    hasKey g'.tags k = false := by
  rw [hasKey_eq_isSome, processTags_tags_eq h]
  have hstd : ¬ "std" = k := by rcases hk with h|h|h|h|h|h|h <;> simp [h]
  have hmean : ¬ "mean" = k := by rcases hk with h|h|h|h|h|h|h <;> simp [h]
  have hpc : ¬ "p_connection" = k := by
    rcases hk with h|h|h|h|h|h|h <;> simp [h]
  have hpl : ¬ "plastic" = k := by rcases hk with h|h|h|h|h|h|h <;> simp [h]
  rw [dictGet_dictUpdate_ne _ _ _ _ hstd, dictGet_dictUpdate_ne _ _ _ _ hmean,
    dictGet_dictUpdate_ne _ _ _ _ hpc, dictGet_dictUpdate_ne _ _ _ _ hpl]
  rcases hk with h|h|h|h|h|h|h <;> subst h
  · rw [dictGet_dictPop_ne _ _ _ (by decide),
      dictGet_dictPop_ne _ _ _ (by decide),
      dictGet_dictPop_ne _ _ _ (by decide),
      dictGet_dictPop_ne _ _ _ (by decide),
      dictGet_dictPop_ne _ _ _ (by decide),
      dictGet_dictPop_ne _ _ _ (by decide), dictGet_dictPop_self]
    rfl
  · rw [dictGet_dictPop_ne _ _ _ (by decide),
      dictGet_dictPop_ne _ _ _ (by decide),
      dictGet_dictPop_ne _ _ _ (by decide),
      dictGet_dictPop_ne _ _ _ (by decide),
      dictGet_dictPop_ne _ _ _ (by decide), dictGet_dictPop_self]
    rfl
  · rw [dictGet_dictPop_ne _ _ _ (by decide),
      dictGet_dictPop_ne _ _ _ (by decide),
      dictGet_dictPop_ne _ _ _ (by decide),
      dictGet_dictPop_ne _ _ _ (by decide), dictGet_dictPop_self]
    rfl
  · rw [dictGet_dictPop_ne _ _ _ (by decide),
      dictGet_dictPop_ne _ _ _ (by decide),
      dictGet_dictPop_ne _ _ _ (by decide), dictGet_dictPop_self]
    rfl
  · rw [dictGet_dictPop_ne _ _ _ (by decide),
      dictGet_dictPop_ne _ _ _ (by decide), dictGet_dictPop_self]
    rfl
  · rw [dictGet_dictPop_ne _ _ _ (by decide), dictGet_dictPop_self]
    rfl
  · rw [dictGet_dictPop_self]
    rfl

theorem processTags_added {g g' : SynGroup}
    (h : processTags g = .ok g') (k : String)
    (hk : k = "plastic" ∨ k = "p_connection" ∨ k = "mean" ∨ k = "std") :
    hasKey g'.tags k = true := by
  rw [hasKey_eq_isSome, processTags_tags_eq h]
  rcases hk with h1|h1|h1|h1 <;> subst h1
  · rw [dictGet_dictUpdate_ne _ _ _ _ (by decide),
      dictGet_dictUpdate_ne _ _ _ _ (by decide),
      dictGet_dictUpdate_ne _ _ _ _ (by decide), dictGet_dictUpdate_self]
    rfl
  · rw [dictGet_dictUpdate_ne _ _ _ _ (by decide),
      dictGet_dictUpdate_ne _ _ _ _ (by decide), dictGet_dictUpdate_self]
    rfl
  · rw [dictGet_dictUpdate_ne _ _ _ _ (by decide), dictGet_dictUpdate_self]
    rfl
  · rw [dictGet_dictUpdate_self]
    rfl

theorem processAllTags_ok_elim {l l' : List (String × SynGroup)}
    (h : processAllTags l = .ok l') :
    List.Forall₂ (fun p q => p.1 = q.1 ∧ processTags p.2 = .ok q.2) l l' := by
  induction l generalizing l' with
  | nil =>
    unfold processAllTags at h
    injection h with h'
    rw [← h']
    exact List.Forall₂.nil
  | cons p rest ih =>
    obtain ⟨k, g⟩ := p
    unfold processAllTags at h
    cases hpt : processTags g with
    | error e =>
      rw [hpt] at h
      exact absurd h (by simp)
    | ok g' =>
      rw [hpt] at h
      cases hr : processAllTags rest with
      | error e =>
        rw [hr] at h
        exact absurd h (by simp)
      | ok rest' =>
        rw [hr] at h
        injection h with h'
        rw [← h']
        exact List.Forall₂.cons ⟨rfl, hpt⟩ (ih hr)

theorem processAllTags_map_eq {β : Type} (f : SynGroup → β)
    (hf : ∀ g g', processTags g = .ok g' → f g' = f g)
    {l l' : List (String × SynGroup)} (h : processAllTags l = .ok l') :
    l'.map (fun p => (p.1, f p.2)) = l.map (fun p => (p.1, f p.2)) := by
  have hF := processAllTags_ok_elim h
  clear h
  induction hF with
  | nil => rfl
  | cons ha _ ihr =>
    simp only [List.map_cons, ihr]
    rw [ha.1, hf _ _ ha.2]

theorem processAllTags_fst {l l' : List (String × SynGroup)}
    (h : processAllTags l = .ok l') : l'.map Prod.fst = l.map Prod.fst := by
  have hF := processAllTags_ok_elim h
  clear h
  induction hF with
  | nil => rfl
  | cons ha _ ihr =>
    simp only [List.map_cons, ihr]
    rw [ha.1]

theorem processAllTags_dictGet {l l' : List (String × SynGroup)}
    (h : processAllTags l = .ok l') (k : String) (g : SynGroup)
    (hg : dictGet l k = some g) :
    ∃ g', dictGet l' k = some g' ∧ processTags g = .ok g' := by
  have hF := processAllTags_ok_elim h
  clear h
  induction hF generalizing g with
  | nil => exact absurd hg (by simp [dictGet])
  | cons ha hrest ihr =>
    rename_i a b as bs
    rw [dictGet_cons] at hg
    by_cases hak : a.1 = k
    · rw [if_pos hak] at hg
      injection hg with hg'
      refine ⟨b.2, ?_, ?_⟩
      · rw [dictGet_cons, if_pos (ha.1 ▸ hak)]
      · exact hg' ▸ ha.2
    · rw [if_neg hak] at hg
      obtain ⟨g', hg1, hg2⟩ := ihr _ hg
      refine ⟨g', ?_, hg2⟩
      rw [dictGet_cons, if_neg (ha.1 ▸ hak)]
      exact hg1

theorem processAllTags_ok_of (l : List (String × SynGroup))
    (h : ∀ p ∈ l, ¬ p.2.sourceN * p.2.targetN = 0) :
    ∃ l', processAllTags l = .ok l' := by
  induction l with
  | nil => exact ⟨[], rfl⟩
  | cons p rest ih =>
    obtain ⟨l', hl'⟩ := ih (fun q hq => h q (List.mem_cons_of_mem _ hq))
    obtain ⟨k, g⟩ := p
    have hz := h (k, g) (List.mem_cons_self _ _)
    cases hpt : processTags g with
    | error e => exact absurd (processTags_error hpt).2 hz
    | ok g' =>
      refine ⟨(k, g') :: l', ?_⟩
      unfold processAllTags
      rw [hpt, hl']

theorem processAllTags_error_of (l : List (String × SynGroup))
    (h : ∃ p ∈ l, p.2.sourceN * p.2.targetN = 0) :
    processAllTags l = .error .zeroDivision := by
  induction l with
  | nil => simp at h
  | cons p rest ih =>
    obtain ⟨q, hq, hz⟩ := h
    obtain ⟨k, g⟩ := p
    unfold processAllTags
    rcases List.mem_cons.mp hq with h1 | h1
    · rw [processTags_zero g (by rw [h1] at hz; exact hz)]
    · cases hpt : processTags g with
      | error e =>
        rw [(processTags_error hpt).1]
      | ok g' =>
        rw [ih ⟨q, h1, hz⟩]

/-! ### Classification of the network members -/

theorem filterMap_fst_sublist {α : Type}
    (f : NetMember → Option (String × α))
    (hf : ∀ m q, f m = some q → q.1 = m.name) (l : List NetMember) :
    ((l.filterMap f).map Prod.fst).Sublist (l.map NetMember.name) := by
  induction l with
  | nil => simp
  | cons m rest ih =>
    rw [List.filterMap_cons]
    cases hm : f m with
    | none =>
      rw [List.map_cons]
      exact ih.cons _
    | some q =>
      rw [List.map_cons, List.map_cons, hf m q hm]
      exact ih.cons₂ _

theorem members_nodup_keys {α : Type} (f : NetMember → Option (String × α))
    (hf : ∀ m q, f m = some q → q.1 = m.name) (net : Net)
    (hnd : (net.objects.map NetMember.name).Nodup) :
    ((net.objects.filterMap f).map Prod.fst).Nodup :=
  (filterMap_fst_sublist f hf net.objects).nodup hnd

theorem members_buildDict_eq {α : Type} (f : NetMember → Option (String × α))
    (hf : ∀ m q, f m = some q → q.1 = m.name) (net : Net)
    (hnd : (net.objects.map NetMember.name).Nodup) :
    buildDict (net.objects.filterMap f) = net.objects.filterMap f :=
  buildDict_eq_self _ (members_nodup_keys f hf net hnd)

theorem members_dictGet {α : Type} (f : NetMember → Option (String × α))
    (hf : ∀ m q, f m = some q → q.1 = m.name) (net : Net)
    (hnd : (net.objects.map NetMember.name).Nodup)
    (k : String) (v : α) (hm : (k, v) ∈ net.objects.filterMap f) :
    dictGet (buildDict (net.objects.filterMap f)) k = some v := by
  rw [members_buildDict_eq f hf net hnd]
  exact dictGet_of_mem_nodup _ k v (members_nodup_keys f hf net hnd) hm

theorem members_dictGet_none {α : Type} (f : NetMember → Option (String × α))
    (hf : ∀ m q, f m = some q → q.1 = m.name) (net : Net)
    (hnd : (net.objects.map NetMember.name).Nodup) (k : String)
    (habs : ∀ q ∈ net.objects.filterMap f, ¬ q.1 = k) :
    dictGet (buildDict (net.objects.filterMap f)) k = Option.none := by
  rw [members_buildDict_eq f hf net hnd, dictGet_eq_none_iff]
  intro hk
  obtain ⟨q, hq, hqk⟩ := List.mem_map.mp hk
  exact habs q hq hqk

theorem teili2orca_ok_elim {net : Net} {o : Orca}
    (h : teili2orca net = .ok o) :
    ∃ cgs', processAllTags (connMembers net) = .ok cgs' ∧
      o = mkOrca net cgs' := by
  unfold teili2orca at h
  cases hpt : processAllTags (connMembers net) with
  | error e =>
    rw [hpt] at h
    exact absurd h (by simp)
  | ok cgs' =>
    rw [hpt] at h
    injection h with h'
    exact ⟨cgs', rfl, h'.symm⟩

theorem teili2orca_ok_of (net : Net)
    (h : ∀ p ∈ connMembers net, ¬ p.2.sourceN * p.2.targetN = 0) :
    ∃ o cgs', teili2orca net = .ok o ∧
      processAllTags (connMembers net) = .ok cgs' ∧ o = mkOrca net cgs' := by
  obtain ⟨cgs', hcgs⟩ := processAllTags_ok_of (connMembers net) h
  refine ⟨mkOrca net cgs', cgs', ?_, hcgs, rfl⟩
  unfold teili2orca
  rw [hcgs]

theorem mkOrca_neuron_groups (net : Net) (cgs' : List (String × SynGroup)) :
    (mkOrca net cgs').neuron_groups = neuronMembers net := rfl

theorem mkOrca_conn_groups (net : Net) (cgs' : List (String × SynGroup)) :
    (mkOrca net cgs').conn_groups = cgs' := rfl

theorem mkOrca_poisson_groups (net : Net) (cgs' : List (String × SynGroup)) :
    (mkOrca net cgs').poisson_groups = poissonMembers net := rfl

theorem mkOrca_spikegen_groups (net : Net) (cgs' : List (String × SynGroup)) :
    (mkOrca net cgs').spikegen_groups = spikegenMembers net := rfl

theorem mkOrca_total_num_neurons (net : Net)
    (cgs' : List (String × SynGroup)) :
    (mkOrca net cgs').total_num_neurons
      = ((neuronMembers net).map (fun p => p.2.N)).sum := rfl

theorem mkOrca_total_num_synapses (net : Net)
    (cgs' : List (String × SynGroup)) :
    (mkOrca net cgs').total_num_synapses
      = ((connMembers net).map (fun p => p.2.numSynapses)).sum := rfl

theorem mkOrca_neuron_populations (net : Net)
    (cgs' : List (String × SynGroup)) :
    (mkOrca net cgs').neuron_populations
      = (neuronMembers net).map (fun p => (p.1, p.2.N)) := rfl

theorem mkOrca_synapse_populations (net : Net)
    (cgs' : List (String × SynGroup)) :
    (mkOrca net cgs').synapse_populations
      = (connMembers net).map
          (fun p => (p.1, (p.2.sourceName, p.2.targetName))) := rfl

theorem mkOrca_synapse_tags (net : Net) (cgs' : List (String × SynGroup)) :
    (mkOrca net cgs').synapse_tags
      = cgs'.map (fun p => (p.1, p.2.tags)) := rfl

theorem mkOrca_neuron_params (net : Net) (cgs' : List (String × SynGroup)) :
    (mkOrca net cgs').neuron_params
      = (neuronMembers net).map (fun p => (p.1, p.2.initParams)) := rfl

theorem mkOrca_synapse_params (net : Net) (cgs' : List (String × SynGroup)) :
    (mkOrca net cgs').synapse_params
      = cgs'.map (fun p => (p.1, p.2.initParams)) := rfl

theorem mkOrca_net_dict_keys (net : Net) (cgs' : List (String × SynGroup)) :
    (mkOrca net cgs').net_dict.map Prod.fst
      = ["n_total", "s_total", "n_pop", "s_pop", "s_tags", "n_params",
         "s_params"] := rfl

theorem mkOrca_net_dict_n_total (net : Net)
    (cgs' : List (String × SynGroup)) :
    dictGet (mkOrca net cgs').net_dict "n_total"
      = some (.int (((((neuronMembers net).map
          (fun p => p.2.N)).sum : Nat) : Int))) := rfl

theorem mkOrca_net_dict_s_total (net : Net)
    (cgs' : List (String × SynGroup)) :
    dictGet (mkOrca net cgs').net_dict "s_total"
      = some (.int (((((connMembers net).map
          (fun p => p.2.numSynapses)).sum : Nat) : Int))) := rfl

theorem mkOrca_net_dict_n_pop (net : Net) (cgs' : List (String × SynGroup)) :
    dictGet (mkOrca net cgs').net_dict "n_pop"
      = some (.dict (toPyDict (((neuronMembers net).map
          (fun p => (p.1, p.2.N))).map
            fun p => (p.1, .int (p.2 : Int))))) := rfl

/-! ### Remaining helpers -/

theorem entries_toPyDict (l : List (String × PyVal)) :
    (toPyDict l).entries = l := by
  induction l with
  | nil => rfl
  | cons p rest ih =>
    obtain ⟨k, v⟩ := p
    simp [toPyDict, PyDict.entries, ih]

theorem processAllTags_map_snd {β : Type} (f : SynGroup → β)
    (hf : ∀ g g', processTags g = .ok g' → f g' = f g)
    {l l' : List (String × SynGroup)} (h : processAllTags l = .ok l') :
    l'.map (fun p => f p.2) = l.map (fun p => f p.2) := by
  have hF := processAllTags_ok_elim h
  clear h
  induction hF with
  | nil => rfl
  | cons ha _ ihr =>
    simp only [List.map_cons, ihr]
    rw [hf _ _ ha.2]

/-! ### Claims -/

/-- Claim C2: after construction from a network object, `net_dict['n_total']`
equals the sum of the per-population sizes stored in `net_dict['n_pop']`,
and `net_dict['s_total']` equals the sum over all connection groups of
their synapse counts (`len` of each group). -/
theorem C2_sum_invariant (net : Net) (o : Orca)
    (h : teili2orca net = .ok o) :
    ∃ pops : PyDict,
      dictGet o.net_dict "n_pop" = some (.dict pops) ∧
      dictGet o.net_dict "n_total" = some (.int (pyDictIntSum pops)) ∧
      dictGet o.net_dict "s_total" = some (.int
        ((o.conn_groups.map fun p => (p.2.numSynapses : Int)).sum)) := by
  obtain ⟨cgs', hcgs, ho⟩ := teili2orca_ok_elim h
  subst ho
  refine ⟨_, mkOrca_net_dict_n_pop net cgs', ?_, ?_⟩
  · rw [mkOrca_net_dict_n_total]
    have : pyDictIntSum (toPyDict (((neuronMembers net).map
        (fun p => (p.1, p.2.N))).map fun p => (p.1, .int (p.2 : Int))))
        = ((((neuronMembers net).map (fun p => p.2.N)).sum : Nat) : Int) := by
      unfold pyDictIntSum
      rw [entries_toPyDict, Nat.cast_list_sum]
      simp only [List.map_map]
      congr 1
    rw [this]
  · rw [mkOrca_net_dict_s_total, mkOrca_conn_groups]
    have hsnd := processAllTags_map_snd (fun g => g.numSynapses)
      (fun g g' hok => (processTags_ok_fields hok).2.2.2.2.2.1) hcgs
    have : (cgs'.map fun p => (p.2.numSynapses : Int)).sum
        = ((((connMembers net).map (fun p => p.2.numSynapses)).sum : Nat)
            : Int) := by
      rw [Nat.cast_list_sum, ← hsnd]
      simp only [List.map_map]
      congr 1
    rw [this]

/-- Witness for C2 at a concrete network with one neuron group of three
neurons and no connection groups. -/
theorem C2_witness :
    ∃ pops : PyDict,
      dictGet (mkOrca ⟨[.neurons ⟨"a", 3, []⟩]⟩ []).net_dict "n_pop"
        = some (.dict pops) ∧
      dictGet (mkOrca ⟨[.neurons ⟨"a", 3, []⟩]⟩ []).net_dict "n_total"
        = some (.int (pyDictIntSum pops)) ∧
      dictGet (mkOrca ⟨[.neurons ⟨"a", 3, []⟩]⟩ []).net_dict "s_total"
        = some (.int (((mkOrca ⟨[.neurons ⟨"a", 3, []⟩]⟩
            []).conn_groups.map fun p => (p.2.numSynapses : Int)).sum)) :=
  C2_sum_invariant ⟨[.neurons ⟨"a", 3, []⟩]⟩
    (mkOrca ⟨[.neurons ⟨"a", 3, []⟩]⟩ []) rfl

/-- Claim C8: the mapping serialized by `save_to_file` (`net_dict` as built
by the constructor) has exactly the seven keys `n_total`, `s_total`,
`n_pop`, `s_pop`, `s_tags`, `n_params`, `s_params`. -/
theorem C8_net_dict_keys (net : Net) (o : Orca)
    (h : teili2orca net = .ok o) :
    o.net_dict.map Prod.fst = ["n_total", "s_total", "n_pop", "s_pop",
      "s_tags", "n_params", "s_params"] := by
  obtain ⟨cgs', _, ho⟩ := teili2orca_ok_elim h
  subst ho
  exact mkOrca_net_dict_keys net cgs'

/-- Witness for C8 at a concrete network with one spike generator and one
neuron group. -/
theorem C8_witness :
    (mkOrca ⟨[.spikeGen ⟨"sg", 2, []⟩, .neurons ⟨"n1", 4, []⟩]⟩
        []).net_dict.map Prod.fst
      = ["n_total", "s_total", "n_pop", "s_pop", "s_tags", "n_params",
         "s_params"] :=
  C8_net_dict_keys ⟨[.spikeGen ⟨"sg", 2, []⟩, .neurons ⟨"n1", 4, []⟩]⟩
    (mkOrca ⟨[.spikeGen ⟨"sg", 2, []⟩, .neurons ⟨"n1", 4, []⟩]⟩ []) rfl

/-- Reduction of `load_from_file` when the file exists. -/
theorem load_from_file_some {o : Orca} {fn : String} {fs : FS} {v}
    (h : dictGet fs.files fn = some v) :
    load_from_file o fn fs = .ok { o with net_dict := v } := by
  unfold load_from_file
  rw [h]

/-- Reduction of `load_from_file` when the file is missing. -/
theorem load_from_file_none {o : Orca} {fn : String} {fs : FS}
    (h : dictGet fs.files fn = Option.none) :
    load_from_file o fn fs = .error .fileNotFound := by
  unfold load_from_file
  rw [h]

/-- Elimination of a successful `save_to_file`: the written path and the
resulting file system. -/
theorem save_to_file_ok_elim {o : Orca} {fn : String} {dir : Option String}
    {home : String} {fs fs' : FS} {p : String}
    (h : save_to_file o fn dir home fs = .ok (fs', p)) :
    p = pathJoin (saveDir dir home) (saveFname fn) ∧
    fs' = { ensureDefaultDir dir home fs with
            files := dictUpdate (ensureDefaultDir dir home fs).files
              (pathJoin (saveDir dir home) (saveFname fn)) o.net_dict } := by
  simp only [save_to_file] at h
  split at h
  · injection h with h1
    rw [Prod.mk.injEq] at h1
    exact ⟨h1.2.symm, h1.1.symm⟩
  · exact absurd h (by simp)

/-- Claim C1: for every constructed extractor, calling `save_to_file` with a
filename and then `load_from_file` on the path that `save_to_file` wrote
leaves `net_dict` equal to the mapping that was saved: serialization
followed by deserialization reproduces the original mapping exactly. -/
theorem C1_save_load_roundtrip (o : Orca) (fn : String)
    (dir : Option String) (home : String) (fs fs' : FS) (p : String)
    (h : save_to_file o fn dir home fs = .ok (fs', p)) (o₂ : Orca) :
    ∃ o' : Orca, load_from_file o₂ p fs' = .ok o' ∧
      o'.net_dict = o.net_dict := by
  obtain ⟨hp, hfs⟩ := save_to_file_ok_elim h
  subst hp
  subst hfs
  exact ⟨_, load_from_file_some (dictGet_dictUpdate_self _ _ _), rfl⟩

/-- Witness for C1: a concrete save into the default directory followed by
a load of the written path. -/
theorem C1_witness :
    ∃ o' : Orca,
      load_from_file (mkOrca ⟨[]⟩ []) "/h/teiliApps/output/net.p"
        ⟨["/h/teiliApps/output"],
         [("/h/teiliApps/output/net.p", (mkOrca ⟨[]⟩ []).net_dict)]⟩
        = .ok o' ∧
      o'.net_dict = (mkOrca ⟨[]⟩ []).net_dict :=
  C1_save_load_roundtrip (mkOrca ⟨[]⟩ []) "net" Option.none "/h" ⟨[], []⟩
    ⟨["/h/teiliApps/output"],
     [("/h/teiliApps/output/net.p", (mkOrca ⟨[]⟩ []).net_dict)]⟩
    "/h/teiliApps/output/net.p" rfl (mkOrca ⟨[]⟩ [])

/-- Claim C5: after construction, `net_dict` is never modified by any
operation except `load_from_file`, which replaces it wholesale with the
mapping read from the file; `save_to_file` and `print_network` leave
`net_dict` (and all other extractor fields) unchanged, and
`load_from_file` changes no field other than `net_dict`.  In the
embedding, `save_to_file` and `print_network` assign no attribute (their
types take the `Orca` read-only); the first conjunct additionally shows
that the content saved is the unmodified `net_dict`, and the remaining
conjuncts state the frame condition of `load_from_file`. -/
theorem C5_frame (o : Orca) (fn : String) (fs : FS) :
    (∀ (dir : Option String) (home : String) (fs' : FS) (p : String),
      save_to_file o fn dir home fs = .ok (fs', p) →
        dictGet fs'.files p = some o.net_dict) ∧
    (∀ o' : Orca, load_from_file o fn fs = .ok o' →
      o'.neuron_groups = o.neuron_groups ∧
      o'.conn_groups = o.conn_groups ∧
      o'.poisson_groups = o.poisson_groups ∧
      o'.spikegen_groups = o.spikegen_groups ∧
      o'.total_num_neurons = o.total_num_neurons ∧
      o'.total_num_synapses = o.total_num_synapses ∧
      o'.neuron_populations = o.neuron_populations ∧
      o'.synapse_populations = o.synapse_populations ∧
      o'.synapse_tags = o.synapse_tags ∧
      o'.neuron_params = o.neuron_params ∧
      o'.synapse_params = o.synapse_params ∧
      dictGet fs.files fn = some o'.net_dict) := by
  constructor
  · intro dir home fs' p h
    obtain ⟨hp, hfs⟩ := save_to_file_ok_elim h
    subst hp
    subst hfs
    exact dictGet_dictUpdate_self _ _ _
  · intro o' h
    unfold load_from_file at h
    cases hget : dictGet fs.files fn with
    | none =>
      rw [hget] at h
      exact absurd h (by simp)
    | some v =>
      rw [hget] at h
      injection h with h1
      subst h1
      exact ⟨rfl, rfl, rfl, rfl, rfl, rfl, rfl, rfl, rfl, rfl, rfl, rfl⟩

/-- Witness for C5: a concrete save and a concrete load exercising both
conjuncts. -/
theorem C5_witness :
    dictGet
      (FS.mk ["/h/teiliApps/output"]
       [("/h/teiliApps/output/net.p", (mkOrca ⟨[]⟩ []).net_dict)]).files
      "/h/teiliApps/output/net.p" = some (mkOrca ⟨[]⟩ []).net_dict ∧
    ({ mkOrca ⟨[]⟩ [] with net_dict := [] } : Orca).conn_groups
        = (mkOrca ⟨[]⟩ []).conn_groups ∧
    dictGet (FS.mk [] [("f.p", [])]).files "f.p"
      = some ({ mkOrca ⟨[]⟩ [] with net_dict := [] } : Orca).net_dict :=
  ⟨(C5_frame (mkOrca ⟨[]⟩ []) "net" ⟨[], []⟩).1 Option.none "/h"
      ⟨["/h/teiliApps/output"],
       [("/h/teiliApps/output/net.p", (mkOrca ⟨[]⟩ []).net_dict)]⟩
      "/h/teiliApps/output/net.p" rfl,
   ((C5_frame (mkOrca ⟨[]⟩ []) "f.p" ⟨[], [("f.p", [])]⟩).2
      { mkOrca ⟨[]⟩ [] with net_dict := [] } rfl).2.1,
   ((C5_frame (mkOrca ⟨[]⟩ []) "f.p" ⟨[], [("f.p", [])]⟩).2
      { mkOrca ⟨[]⟩ [] with net_dict := [] } rfl).2.2.2.2.2.2.2.2.2.2.2⟩

/-- Claim C6: when some connection group has an empty source or target
population (`source.N * target.N == 0`), extraction raises a
division-by-zero error that propagates directly to the caller with no
recovery; likewise `load_from_file` on a missing file propagates the
underlying I/O error directly.  (Group names are assumed distinct, as
`brian2` enforces for the objects of a `Network`.) -/
theorem C6_error_propagation :
    (∀ net : Net, (net.objects.map NetMember.name).Nodup →
      (∃ g : SynGroup, (NetMember.connections g ∈ net.objects ∨
          NetMember.synapses g ∈ net.objects) ∧
        g.sourceN * g.targetN = 0) →
      teili2orca net = .error .zeroDivision) ∧
    (∀ (o : Orca) (fn : String) (fs : FS),
      dictGet fs.files fn = Option.none →
      load_from_file o fn fs = .error .fileNotFound) := by
  constructor
  · intro net hnd ⟨g, hg, hz⟩
    have hmem : (g.name, g) ∈ connMembers net := by
      unfold connMembers
      rw [members_buildDict_eq _ ?_ net hnd]
      · rcases hg with h | h
        · exact List.mem_filterMap.mpr ⟨.connections g, h, rfl⟩
        · exact List.mem_filterMap.mpr ⟨.synapses g, h, rfl⟩
      · intro m q hm
        cases m <;> simp_all [NetMember.name] <;> rw [← hm]
    unfold teili2orca
    rw [processAllTags_error_of (connMembers net) ⟨(g.name, g), hmem, hz⟩]
  · intro o fn fs h
    exact load_from_file_none h

/-- Witness for C6: a network whose only connection group has an empty
source population, and a load from an empty file system. -/
theorem C6_witness :
    teili2orca ⟨[.connections ⟨"s1", "a", 0, "b", 1, 0, [], [], []⟩]⟩
        = .error .zeroDivision ∧
    load_from_file (mkOrca ⟨[]⟩ []) "missing.p" ⟨[], []⟩
        = .error .fileNotFound :=
  ⟨C6_error_propagation.1 ⟨[.connections ⟨"s1", "a", 0, "b", 1, 0, [], [], []⟩]⟩
      (by decide)
      ⟨⟨"s1", "a", 0, "b", 1, 0, [], [], []⟩, Or.inl (by decide), rfl⟩,
   C6_error_propagation.2 (mkOrca ⟨[]⟩ []) "missing.p" ⟨[], []⟩ rfl⟩

/-- Lookup of a connection-like network member in the extractor's
`conn_groups`: the stored object is the member's group after the in-place
`_tags` mutation of `extract_synapse_tags` (the same Python object the
network holds). -/
theorem conn_lookup (net : Net)
    (hnd : (net.objects.map NetMember.name).Nodup) (g : SynGroup)
    (hg : NetMember.connections g ∈ net.objects ∨
      NetMember.synapses g ∈ net.objects)
    (o : Orca) (h : teili2orca net = .ok o) :
    ∃ g', dictGet o.conn_groups g.name = some g' ∧
      processTags g = .ok g' := by
  obtain ⟨cgs', hcgs, ho⟩ := teili2orca_ok_elim h
  subst ho
  rw [mkOrca_conn_groups]
  have hget : dictGet (connMembers net) g.name = some g := by
    unfold connMembers
    apply members_dictGet _ ?_ net hnd
    · rcases hg with h1 | h1
      · exact List.mem_filterMap.mpr ⟨.connections g, h1, rfl⟩
      · exact List.mem_filterMap.mpr ⟨.synapses g, h1, rfl⟩
    · intro m q hm
      cases m <;> simp_all [NetMember.name] <;> rw [← hm]
  exact processAllTags_dictGet hcgs g.name g hget

/-- Lookup of a connection-like member's entry in `synapse_tags`: the
stored dictionary is the member's `_tags` object after the in-place
mutation. -/
theorem synapse_tags_lookup (net : Net)
    (hnd : (net.objects.map NetMember.name).Nodup) (g : SynGroup)
    (hg : NetMember.connections g ∈ net.objects ∨
      NetMember.synapses g ∈ net.objects)
    (o : Orca) (h : teili2orca net = .ok o) :
    ∃ g', dictGet o.synapse_tags g.name = some g'.tags ∧
      processTags g = .ok g' := by
  obtain ⟨g', hg1, hg2⟩ := conn_lookup net hnd g hg o h
  obtain ⟨cgs', hcgs, ho⟩ := teili2orca_ok_elim h
  subst ho
  refine ⟨g', ?_, hg2⟩
  rw [mkOrca_synapse_tags, dictGet_map_value]
  rw [mkOrca_conn_groups] at hg1
  rw [hg1]
  rfl

/-- Counterexample to claim C3 as stated: for the multapse group `cx3G`
(non-empty source and target populations of two neurons each, five
synapses) the computed `p_connection` is `5/4 > 1`, outside `[0, 1]`. -/
theorem C3_counterexample :
    ∃ (o : Orca) (t : List (String × PyVal)),
      teili2orca cx3Net = .ok o ∧
      dictGet o.synapse_tags "s1" = some t ∧
      dictGet t "p_connection" = some (.float (((5 : Nat) : ℚ) /
        (((2 : Nat) : ℚ) * ((2 : Nat) : ℚ)))) ∧
      ¬ (((5 : Nat) : ℚ) / (((2 : Nat) : ℚ) * ((2 : Nat) : ℚ)) ≤ 1) := by
  obtain ⟨o, cgs', ho, _, _⟩ := teili2orca_ok_of cx3Net (by decide)
  obtain ⟨g', ht, hok⟩ :=
    synapse_tags_lookup cx3Net (by decide) cx3G (Or.inl (by decide)) o ho
  refine ⟨o, g'.tags, ho, ht, processTags_pconn hok, ?_⟩
  intro hle
  norm_num at hle

/-- Claim C3 (amended): for every connection group of the network, the
`p_connection` value computed by `extract_synapse_tags` as
`len(group) / (source.N * target.N)` is non-negative, and it lies in
`[0, 1]` exactly when the group has at most `source.N * target.N`
synapses; a multapse group (more than one synapse per neuron pair in
total) yields a value above 1.  (Group names are assumed distinct, as
`brian2` enforces.) -/
theorem C3_pconnection (net : Net)
    (hnd : (net.objects.map NetMember.name).Nodup) (g : SynGroup)
    (hg : NetMember.connections g ∈ net.objects ∨
      NetMember.synapses g ∈ net.objects)
    (o : Orca) (h : teili2orca net = .ok o) :
    ∃ t, dictGet o.synapse_tags g.name = some t ∧
      dictGet t "p_connection" = some (.float ((g.numSynapses : ℚ) /
        ((g.sourceN : ℚ) * (g.targetN : ℚ)))) ∧
      0 ≤ (g.numSynapses : ℚ) / ((g.sourceN : ℚ) * (g.targetN : ℚ)) ∧
      ((g.numSynapses : ℚ) / ((g.sourceN : ℚ) * (g.targetN : ℚ)) ≤ 1 ↔
        g.numSynapses ≤ g.sourceN * g.targetN) := by
  obtain ⟨g', ht, hok⟩ := synapse_tags_lookup net hnd g hg o h
  have hz := processTags_ok_nonzero hok
  have hspos : 0 < g.sourceN :=
    Nat.pos_of_ne_zero (fun h0 => hz (by rw [h0, Nat.zero_mul]))
  have htpos : 0 < g.targetN :=
    Nat.pos_of_ne_zero (fun h0 => hz (by rw [h0, Nat.mul_zero]))
  have hden : (0 : ℚ) < (g.sourceN : ℚ) * (g.targetN : ℚ) := by
    have h1 : (0 : ℚ) < (g.sourceN : ℚ) := by exact_mod_cast hspos
    have h2 : (0 : ℚ) < (g.targetN : ℚ) := by exact_mod_cast htpos
    exact mul_pos h1 h2
  refine ⟨g'.tags, ht, processTags_pconn hok, ?_, ?_⟩
  · exact div_nonneg (Nat.cast_nonneg _) (le_of_lt hden)
  · rw [div_le_one hden]
    constructor
    · intro hle
      exact_mod_cast hle
    · intro hle
      exact_mod_cast hle

/-- Witness for the amended C3 at a concrete group with one synapse
between two populations of two neurons: `p_connection = 1/4 ∈ [0, 1]`. -/
theorem C3_witness :
    ∃ (o : Orca) (t : List (String × PyVal)),
      teili2orca ⟨[.synapses ⟨"s2", "a", 2, "b", 2, 1, [], [], []⟩]⟩
        = .ok o ∧
      dictGet o.synapse_tags "s2" = some t ∧
      dictGet t "p_connection" = some (.float (((1 : Nat) : ℚ) /
        (((2 : Nat) : ℚ) * ((2 : Nat) : ℚ)))) ∧
      0 ≤ ((1 : Nat) : ℚ) / (((2 : Nat) : ℚ) * ((2 : Nat) : ℚ)) ∧
      (((1 : Nat) : ℚ) / (((2 : Nat) : ℚ) * ((2 : Nat) : ℚ)) ≤ 1 ↔
        (1 : Nat) ≤ 2 * 2) := by
  obtain ⟨o, cgs', ho, _, _⟩ := teili2orca_ok_of
    ⟨[.synapses ⟨"s2", "a", 2, "b", 2, 1, [], [], []⟩]⟩ (by decide)
  obtain ⟨t, ht, hp, hn, hiff⟩ := C3_pconnection
    ⟨[.synapses ⟨"s2", "a", 2, "b", 2, 1, [], [], []⟩]⟩ (by decide)
    ⟨"s2", "a", 2, "b", 2, 1, [], [], []⟩ (Or.inr (by decide)) o ho
  exact ⟨o, t, ho, ht, hp, hn, hiff⟩

/-- Counterexample to claim C4 as stated: constructing the extractor over
`cx4Net` mutates the shared connection-group object in place — the group
reached through `conn_groups` (the same Python object held by the
network) no longer has its original `_tags` dictionary (the `mismatch`
key has been removed, among other changes). -/
theorem C4_counterexample :
    ∃ (o : Orca) (g' : SynGroup),
      teili2orca cx4Net = .ok o ∧
      dictGet o.conn_groups "s1" = some g' ∧
      g'.tags ≠ cx4G.tags := by
  obtain ⟨o, cgs', ho, _, _⟩ := teili2orca_ok_of cx4Net (by decide)
  obtain ⟨g', hg1, hok⟩ :=
    conn_lookup cx4Net (by decide) cx4G (Or.inl (by decide)) o ho
  refine ⟨o, g', ho, hg1, ?_⟩
  intro he
  have h1 : hasKey g'.tags "mismatch" = false :=
    processTags_popped hok "mismatch" (Or.inl rfl)
  rw [he] at h1
  exact absurd h1 (by decide)

/-- Claim C4 (amended): construction reads the network's member objects
and leaves the neuron groups and every connection group's
`_init_parameters` dictionary unchanged, but it does share mutable state
with the input network: `extract_synapse_tags` mutates each connection
group's `_tags` dictionary in place, removing the keys `mismatch`,
`noise`, `level`, `num_inputs`, `bb_type`, `group_type`,
`connection_type` and setting the keys `plastic`, `p_connection`, `mean`,
`std`.  (Group names are assumed distinct, as `brian2` enforces.) -/
theorem C4_tags_mutation (net : Net)
    (hnd : (net.objects.map NetMember.name).Nodup) (g : SynGroup)
    (hg : NetMember.connections g ∈ net.objects ∨
      NetMember.synapses g ∈ net.objects)
    (o : Orca) (h : teili2orca net = .ok o) :
    ∃ g', dictGet o.conn_groups g.name = some g' ∧
      g'.initParams = g.initParams ∧
      g'.numSynapses = g.numSynapses ∧
      g'.w_plast = g.w_plast ∧
      hasKey g'.tags "mismatch" = false ∧
      hasKey g'.tags "noise" = false ∧
      hasKey g'.tags "level" = false ∧
      hasKey g'.tags "num_inputs" = false ∧
      hasKey g'.tags "bb_type" = false ∧
      hasKey g'.tags "group_type" = false ∧
      hasKey g'.tags "connection_type" = false ∧
      hasKey g'.tags "plastic" = true ∧
      hasKey g'.tags "p_connection" = true ∧
      hasKey g'.tags "mean" = true ∧
      hasKey g'.tags "std" = true := by
  obtain ⟨g', hg1, hok⟩ := conn_lookup net hnd g hg o h
  have hf := processTags_ok_fields hok
  exact ⟨g', hg1, hf.2.2.2.2.2.2.1, hf.2.2.2.2.2.1, hf.2.2.2.2.2.2.2,
    processTags_popped hok "mismatch" (by simp),
    processTags_popped hok "noise" (by simp),
    processTags_popped hok "level" (by simp),
    processTags_popped hok "num_inputs" (by simp),
    processTags_popped hok "bb_type" (by simp),
    processTags_popped hok "group_type" (by simp),
    processTags_popped hok "connection_type" (by simp),
    processTags_added hok "plastic" (by simp),
    processTags_added hok "p_connection" (by simp),
    processTags_added hok "mean" (by simp),
    processTags_added hok "std" (by simp)⟩

/-- Witness for the amended C4 at the concrete network `cx4Net`. -/
theorem C4_witness :
    ∃ (o : Orca) (g' : SynGroup),
      teili2orca cx4Net = .ok o ∧
      dictGet o.conn_groups "s1" = some g' ∧
      g'.initParams = cx4G.initParams ∧
      hasKey g'.tags "mismatch" = false ∧
      hasKey g'.tags "p_connection" = true := by
  obtain ⟨o, cgs', ho, _, _⟩ := teili2orca_ok_of cx4Net (by decide)
  obtain ⟨g', hg1, hi, _, _, hm, _, _, _, _, _, _, _, hp, _, _⟩ :=
    C4_tags_mutation cx4Net (by decide) cx4G (Or.inl (by decide)) o ho
  exact ⟨o, g', ho, hg1, hi, hm, hp⟩

/-- Claim C9: network members of type `PoissonGroup` and
`SpikeGeneratorGroup` are collected into their own dictionaries
(`poisson_groups`, `spikegen_groups`) but are excluded from the
neuron-like classification: they contribute to neither `n_total` nor
`n_pop`, so the total neuron count covers only objects whose exact type
is `Neurons` or `NeuronGroup`.  (Member names are assumed distinct, as
`brian2` enforces.) -/
theorem C9_poisson_spikegen_excluded (net : Net)
    (hnd : (net.objects.map NetMember.name).Nodup) (o : Orca)
    (h : teili2orca net = .ok o) :
    (∀ g : NeuGroup, NetMember.poisson g ∈ net.objects →
      dictGet o.poisson_groups g.name = some g ∧
      dictGet o.neuron_populations g.name = Option.none) ∧
    (∀ g : NeuGroup, NetMember.spikeGen g ∈ net.objects →
      dictGet o.spikegen_groups g.name = some g ∧
      dictGet o.neuron_populations g.name = Option.none) ∧
    o.total_num_neurons = (net.objects.filterMap (fun m => match m with
      | .neurons g2 => some g2.N
      | .neuronGroup g2 => some g2.N
      | _ => Option.none)).sum := by
  obtain ⟨cgs', hcgs, ho⟩ := teili2orca_ok_elim h
  subst ho
  have hfneu : ∀ (m : NetMember) (q : String × NeuGroup),
      (match m with
        | NetMember.neurons g2 => some (g2.name, g2)
        | NetMember.neuronGroup g2 => some (g2.name, g2)
        | _ => Option.none) = some q → q.1 = m.name := by
    intro m q hm
    cases m <;> simp_all [NetMember.name] <;> rw [← hm]
  have hnpop_none : ∀ (mem : NetMember) (g : NeuGroup),
      mem ∈ net.objects → mem.name = g.name →
      (∀ g2 : NeuGroup, mem ≠ NetMember.neurons g2) →
      (∀ g2 : NeuGroup, mem ≠ NetMember.neuronGroup g2) →
      dictGet (mkOrca net cgs').neuron_populations g.name = Option.none := by
    intro mem g hmem hname hne1 hne2
    rw [mkOrca_neuron_populations, dictGet_map_value]
    rw [show dictGet (neuronMembers net) g.name = Option.none from ?_]
    · rfl
    · unfold neuronMembers
      apply members_dictGet_none _ hfneu net hnd
      intro q hq hqname
      obtain ⟨m, hmm, hfm⟩ := List.mem_filterMap.mp hq
      have hmname : m.name = g.name := by
        rw [← hfneu m q hfm]
        exact hqname
      have heq : m = mem := List.inj_on_of_nodup_map hnd hmm hmem
        (by rw [hmname, hname])
      cases m with
      | neurons g2 => exact hne1 g2 (heq ▸ rfl)
      | neuronGroup g2 => exact hne2 g2 (heq ▸ rfl)
      | connections g2 => exact absurd hfm (by simp)
      | synapses g2 => exact absurd hfm (by simp)
      | poisson g2 => exact absurd hfm (by simp)
      | spikeGen g2 => exact absurd hfm (by simp)
      | other n => exact absurd hfm (by simp)
  refine ⟨?_, ?_, ?_⟩
  · intro g hmem
    constructor
    · rw [mkOrca_poisson_groups]
      unfold poissonMembers
      apply members_dictGet _ ?_ net hnd
      · exact List.mem_filterMap.mpr ⟨.poisson g, hmem, rfl⟩
      · intro m q hm
        cases m <;> first
          | exact Option.noConfusion hm
          | (injection hm with hm1; subst hm1; rfl)
    · exact hnpop_none (NetMember.poisson g) g hmem rfl
        (fun g2 h2 => by cases h2) (fun g2 h2 => by cases h2)
  · intro g hmem
    constructor
    · rw [mkOrca_spikegen_groups]
      unfold spikegenMembers
      apply members_dictGet _ ?_ net hnd
      · exact List.mem_filterMap.mpr ⟨.spikeGen g, hmem, rfl⟩
      · intro m q hm
        cases m <;> first
          | exact Option.noConfusion hm
          | (injection hm with hm1; subst hm1; rfl)
    · exact hnpop_none (NetMember.spikeGen g) g hmem rfl
        (fun g2 h2 => by cases h2) (fun g2 h2 => by cases h2)
  · rw [mkOrca_total_num_neurons]
    unfold neuronMembers
    rw [members_buildDict_eq _ hfneu net hnd]
    have key : ∀ l : List NetMember,
        ((l.filterMap fun m => match m with
          | NetMember.neurons g2 => some (g2.name, g2)
          | NetMember.neuronGroup g2 => some (g2.name, g2)
          | _ => Option.none).map (fun p => p.2.N))
        = l.filterMap (fun m => match m with
          | NetMember.neurons g2 => some g2.N
          | NetMember.neuronGroup g2 => some g2.N
          | _ => Option.none) := by
      intro l
      induction l with
      | nil => rfl
      | cons m rest ih => cases m <;> simp [List.filterMap_cons, ih]
    rw [key net.objects]

/-- Witness for C9 at a concrete network with one Poisson group, one spike
generator and one neuron group. -/
theorem C9_witness :
    (dictGet (mkOrca ⟨[.poisson ⟨"p1", 5, []⟩, .spikeGen ⟨"sg1", 6, []⟩,
        .neurons ⟨"n1", 7, []⟩]⟩ []).poisson_groups "p1"
      = some ⟨"p1", 5, []⟩ ∧
    dictGet (mkOrca ⟨[.poisson ⟨"p1", 5, []⟩, .spikeGen ⟨"sg1", 6, []⟩,
        .neurons ⟨"n1", 7, []⟩]⟩ []).neuron_populations "p1"
      = Option.none) ∧
    (mkOrca ⟨[.poisson ⟨"p1", 5, []⟩, .spikeGen ⟨"sg1", 6, []⟩,
        .neurons ⟨"n1", 7, []⟩]⟩ []).total_num_neurons
      = ((⟨[.poisson ⟨"p1", 5, []⟩, .spikeGen ⟨"sg1", 6, []⟩,
          .neurons ⟨"n1", 7, []⟩]⟩ : Net).objects.filterMap
            (fun m => match m with
              | .neurons g2 => some g2.N
              | .neuronGroup g2 => some g2.N
              | _ => Option.none)).sum := by
  have h := C9_poisson_spikegen_excluded
    ⟨[.poisson ⟨"p1", 5, []⟩, .spikeGen ⟨"sg1", 6, []⟩,
      .neurons ⟨"n1", 7, []⟩]⟩ (by decide)
    (mkOrca ⟨[.poisson ⟨"p1", 5, []⟩, .spikeGen ⟨"sg1", 6, []⟩,
      .neurons ⟨"n1", 7, []⟩]⟩ []) rfl
  exact ⟨h.1 ⟨"p1", 5, []⟩ (by decide), h.2.2⟩

/-- The Python slice test `s[-k:] == t` coincides with "`s` ends with `t`"
when `k` is the length of `t` (also when `s` is shorter than `t`). -/
theorem pySliceLast_eq_iff_suffix (s t : String) :
    pySliceLast s t.data.length = t.data ↔ List.IsSuffix t.data s.data := by
  rw [List.suffix_iff_eq_drop]
  unfold pySliceLast
  exact eq_comm

/-- Claim C7: for every filename, `save_to_file` writes under the default
directory `~/teiliApps/output/` (creating it if needed) exactly when no
directory argument is given, and appends the extension `.p` to the
filename exactly when the filename does not already end in `.p` or
`.pickle`: the directory component of the written path is the default
directory for `directory=None` and the given directory otherwise, the
default directory exists after the `makedirs` step of the `None` branch
while an explicit directory is left alone, and the written path is the
join of that directory with the possibly-extended filename. -/
theorem C7_default_dir_and_extension (fn d home : String) (fs : FS)
    (o : Orca) :
    (saveFname fn = if List.IsSuffix ".p".data fn.data ∨
        List.IsSuffix ".pickle".data fn.data then fn else fn ++ ".p") ∧
    saveDir Option.none home = defaultDir home ∧
    saveDir (some d) home = d ∧
    (ensureDefaultDir Option.none home fs).dirs.contains (defaultDir home)
      = true ∧
    ensureDefaultDir (some d) home fs = fs ∧
    (∀ fs' p, save_to_file o fn Option.none home fs = .ok (fs', p) →
      p = pathJoin (defaultDir home) (saveFname fn)) ∧
    (∀ fs' p, save_to_file o fn (some d) home fs = .ok (fs', p) →
      p = pathJoin d (saveFname fn)) := by
  have h2 : (pySliceLast fn 2 = ".p".data) ↔
      List.IsSuffix ".p".data fn.data := by
    have he : (2 : Nat) = ".p".data.length := rfl
    rw [he]
    exact pySliceLast_eq_iff_suffix fn ".p"
  have h7 : (pySliceLast fn 7 = ".pickle".data) ↔
      List.IsSuffix ".pickle".data fn.data := by
    have he : (7 : Nat) = ".pickle".data.length := rfl
    rw [he]
    exact pySliceLast_eq_iff_suffix fn ".pickle"
  refine ⟨?_, rfl, rfl, ?_, rfl, ?_, ?_⟩
  · simp only [saveFname, h2, h7]
  · by_cases hc : defaultDir home ∈ fs.dirs
    · simp [ensureDefaultDir, hc]
    · simp [ensureDefaultDir, hc]
  · intro fs' p h
    exact (save_to_file_ok_elim h).1
  · intro fs' p h
    exact (save_to_file_ok_elim h).1

/-- Witness for C7 at concrete inputs: a filename without an extension, a
filename already ending in `.p`, a save into the default directory, and
an explicit directory left untouched. -/
theorem C7_witness :
    saveFname "net" = "net" ++ ".p" ∧
    saveFname "a.p" = "a.p" ∧
    (ensureDefaultDir Option.none "/h" ⟨[], []⟩).dirs.contains
      (defaultDir "/h") = true ∧
    ensureDefaultDir (some "dd") "/h" ⟨[], []⟩ = ⟨[], []⟩ ∧
    (∃ fs' p, save_to_file (mkOrca ⟨[]⟩ []) "net" Option.none "/h" ⟨[], []⟩
        = .ok (fs', p) ∧
      p = pathJoin (defaultDir "/h") (saveFname "net")) := by
  have h1 := C7_default_dir_and_extension "net" "dd" "/h" ⟨[], []⟩
    (mkOrca ⟨[]⟩ [])
  have h2 := C7_default_dir_and_extension "a.p" "dd" "/h" ⟨[], []⟩
    (mkOrca ⟨[]⟩ [])
  refine ⟨?_, ?_, h1.2.2.2.1, h1.2.2.2.2.1, ?_⟩
  · rw [h1.1, if_neg (by decide)]
  · rw [h2.1, if_pos (Or.inl (by decide))]
  · exact ⟨_, _, rfl, h1.2.2.2.2.2.1 _ _ rfl⟩

/-- A `dropWhile` that stops at the first element. -/
theorem dropWhile_eq_self_of_head {α : Type} (p : α → Bool) (l : List α)
    (h : ∀ c, l.head? = some c → p c = false) : l.dropWhile p = l := by
  cases l with
  | nil => rfl
  | cons c cs =>
    rw [List.dropWhile_cons, if_neg]
    rw [h c rfl]
    exact Bool.false_ne_true

/-- `os.path.dirname` of a path of the form `d ++ "/" ++ tail` with a
slash-free `tail` and a well-formed directory `d` (non-empty, not all
slashes, no trailing slash) is `d` itself. -/
theorem dirname_of_data (p d : String) (tail : List Char)
    (hp : p.data = d.data ++ '/' :: tail)
    (hall : ¬ d.data.all (fun c => c == '/'))
    (hlast : endsWithSlash d = false)
    (htail : ∀ c ∈ tail, ¬ c = '/') : dirname p = d := by
  unfold dirname
  rw [hp]
  have hrev : (d.data ++ '/' :: tail).reverse
      = tail.reverse ++ '/' :: d.data.reverse := by
    rw [show ('/' : Char) :: tail = ['/'] ++ tail from rfl,
      ← List.append_assoc, List.reverse_append, List.reverse_append]
    simp
  rw [hrev]
  have hdrop1 : (tail.reverse ++ '/' :: d.data.reverse).dropWhile
      (fun c => !(c == '/')) = '/' :: d.data.reverse := by
    rw [List.dropWhile_append]
    have hnil : tail.reverse.dropWhile (fun c => !(c == '/')) = [] := by
      rw [List.dropWhile_eq_nil_iff]
      intro x hx
      have : ¬ x = '/' := htail x (List.mem_reverse.mp hx)
      simp [this]
    rw [hnil]
    simp
  rw [hdrop1]
  have hhead : ('/' :: d.data.reverse).reverse = d.data ++ ['/'] := by
    simp
  rw [hhead]
  have hallf : (d.data ++ ['/']).all (fun c => c == '/') = false := by
    rw [List.all_append]
    have : d.data.all (fun c => c == '/') = false := by
      revert hall
      cases d.data.all (fun c => c == '/') <;> simp
    simp [this]
  rw [if_neg (by rw [hallf]; exact Bool.false_ne_true)]
  have hstrip : rstripSlash (d.data ++ ['/']) = d.data := by
    unfold rstripSlash
    rw [List.reverse_append]
    have h1 : (['/'] : List Char).reverse = ['/'] := rfl
    rw [h1]
    rw [show (['/'] ++ d.data.reverse : List Char)
        = '/' :: d.data.reverse from rfl]
    rw [List.dropWhile_cons, if_pos (by rfl)]
    have h2 : d.data.reverse.dropWhile (fun c => c == '/')
        = d.data.reverse := by
      apply dropWhile_eq_self_of_head
      intro c hc
      rw [List.head?_reverse] at hc
      unfold endsWithSlash at hlast
      rw [hc] at hlast
      exact hlast
    rw [h2, List.reverse_reverse]
  rw [hstrip]

/-- Claim C10: when an explicit directory argument is passed to
`save_to_file`, that directory is never created if absent (directory
creation happens only in the default-directory branch), so saving into a
nonexistent explicit directory fails with the underlying file-open error
and writes nothing: the file system is returned unchanged.  The
hypotheses require a well-formed directory string (non-empty, not all
slashes, no trailing slash) and a slash-free filename, so that the
parent directory checked by `open` is the explicit directory itself. -/
theorem C10_explicit_dir_not_created (o : Orca) (fn d home : String)
    (fs : FS) (h1 : fs.dirs.contains d = false) (h2 : d ≠ "")
    (h3 : ¬ d.data.all (fun c => c == '/'))
    (h4 : endsWithSlash d = false)
    (h5 : ∀ c ∈ fn.data, ¬ c = '/') :
    save_to_file o fn (some d) home fs = .error (.fileNotFound, fs) := by
  have hfname : ∀ c ∈ (saveFname fn).data, ¬ c = '/' := by
    unfold saveFname
    split
    · exact h5
    · intro c hc
      rw [String.data_append] at hc
      rcases List.mem_append.mp hc with h | h
      · exact h5 c h
      · intro hc'
        subst hc'
        revert h
        decide
  have hstart : startsWithSlash (saveFname fn) = false := by
    unfold startsWithSlash
    cases hd : (saveFname fn).data with
    | nil => rfl
    | cons c cs =>
      have hcne : ¬ c = '/' := hfname c (by rw [hd]; exact List.mem_cons_self _ _)
      simp [hcne]
  have hjoin : pathJoin d (saveFname fn) = d ++ "/" ++ saveFname fn := by
    unfold pathJoin
    rw [if_neg (by rw [hstart]; exact Bool.false_ne_true), if_neg h2,
      if_neg (by rw [h4]; exact Bool.false_ne_true)]
  have hdata : (d ++ "/" ++ saveFname fn).data
      = d.data ++ '/' :: (saveFname fn).data := by
    rw [String.data_append, String.data_append]
    simp
  have hdir : dirname (d ++ "/" ++ saveFname fn) = d :=
    dirname_of_data _ d (saveFname fn).data hdata h3 h4 hfname
  have hcow : canOpenWrite fs (pathJoin d (saveFname fn)) = false := by
    unfold canOpenWrite
    rw [hjoin, hdir, h1]
    have e1 : (d == "") = false := beq_eq_false_iff_ne.mpr h2
    have e2 : (d == "/") = false := beq_eq_false_iff_ne.mpr (by
      intro hdd
      subst hdd
      exact h3 (by decide))
    rw [e1, e2]
    rfl
  simp only [save_to_file, saveDir, ensureDefaultDir]
  rw [if_neg (by rw [hcow]; exact Bool.false_ne_true)]

/-- Witness for C10: saving with the explicit directory `"nodir"`, absent
from an empty file system, fails and leaves the file system unchanged. -/
theorem C10_witness :
    save_to_file (mkOrca ⟨[]⟩ []) "net" (some "nodir") "/h" ⟨[], []⟩
      = .error (.fileNotFound, ⟨[], []⟩) :=
  C10_explicit_dir_not_created (mkOrca ⟨[]⟩ []) "net" "nodir" "/h" ⟨[], []⟩
    rfl (by decide) (by decide) rfl (by decide)

end Speed
